import Mathlib

/-!
Verification of the reading-insights engine of the IVEread mobile client
(`src/iveread/services/insights.ts`).

Modelling conventions for the shallow embedding:

* A JavaScript `Date` value and a canonical DayKey string `YYYY-MM-DD` are both
  represented by the UTC day number of the calendar day they denote
  (an `Int`, days since 1970-01-01 UTC).  The source functions `dateToKey` and
  `keyToDate` are the two directions of that identification: `dateToKey`
  projects a timestamp to its UTC calendar day and `keyToDate` parses the
  canonical key back; lexicographic order on canonical keys agrees with the
  numeric order of day numbers.  The insights pipeline only ever inspects a
  parsed timestamp through its calendar day (`dateToKey`) or its UTC weekday
  (`getUTCDay`), so day granularity is faithful to every computation below.
* `new Date()` (the ambient clock) becomes an explicit `today : Int` argument.
* JavaScript date parsing (`parseRecordDate`, which returns `null` for an
  unparseable string) is represented by its outcome: the `readDate` and
  `createdAt` fields of a record hold `Option Int`, `none` meaning the raw
  string does not parse.
* `number` results of divisions are modelled as `Rat`; all counts are `Nat`.
* The `async` orchestration over the HTTP layer is modelled with `Except Unit`:
  every remote accessor either yields its value or fails, and `await`
  propagates the failure, exactly as a rejected promise does.
-/

namespace IVEread

/-- Embeds `addDaysUTC` from `insights.ts`: shifting a UTC date by a number of
calendar days is addition on UTC day numbers. -/
def addDaysUTC (date : Int) (days : Int) : Int :=
  date + days

/-- Embeds `date.getUTCDay()`: the JavaScript UTC weekday index
(0 = Sunday, ..., 6 = Saturday) of a day number; 1970-01-01 (day 0) was a
Thursday, index 4. -/
def getUTCDay (date : Int) : Int :=
  (date + 4) % 7

/-- Embeds the `while (dateKeys.has(dateToKey(cursor)))` loop of
`calculateCurrentStreak`: counts how many consecutive days, starting at
`cursor` and walking backward, are present in `dateKeys`.  The loop
terminates because each iteration consumes an element of the finite set that
is at most `cursor`. -/
def streakFrom (dateKeys : Finset Int) (cursor : Int) : Nat :=
  if h : cursor ∈ dateKeys then streakFrom dateKeys (cursor - 1) + 1 else 0
termination_by (dateKeys.filter (fun k => k ≤ cursor)).card
decreasing_by
  apply Finset.card_lt_card
  rw [Finset.ssubset_def]
  constructor
  · intro x hx
    rw [Finset.mem_filter] at hx ⊢
    exact ⟨hx.1, by omega⟩
  · intro hsub
    have hc := hsub (Finset.mem_filter.mpr ⟨h, le_refl cursor⟩)
    rw [Finset.mem_filter] at hc
    omega

/-- Embeds `calculateCurrentStreak` from `insights.ts` (the ambient
`new Date()` is the explicit `today` argument). -/
def calculateCurrentStreak (dateKeys : Finset Int) (today : Int) : Nat :=
  if dateKeys.card = 0 then 0 else streakFrom dateKeys today

/-- Embeds the `for (const key of sortedKeys)` loop of `calculateBestStreak`:
state is the running `best`, the running `current`, and `prevDate`
(`none` before the first iteration).  The source guard
`dateToKey(addDaysUTC(prevDate, 1)) === key` is `prev + 1 = key` on day
numbers. -/
def bestStreakLoop : List Int → Nat → Nat → Option Int → Nat
  | [], best, _, _ => best
  | key :: rest, best, current, prevDate =>
    let current' :=
      match prevDate with
      | some prev => if prev + 1 = key then current + 1 else 1
      | none => 1
    bestStreakLoop rest (if best < current' then current' else best) current' (some key)

/-- Embeds `calculateBestStreak` from `insights.ts`.  `Array.from(dateKeys).sort()`
sorts the canonical keys, which is the ascending numeric order of day
numbers, i.e. `Finset.sort`. -/
def calculateBestStreak (dateKeys : Finset Int) : Nat :=
  if dateKeys.card = 0 then 0
  else bestStreakLoop (dateKeys.sort (· ≤ ·)) 0 0 none

/-- Embeds `calculateWeeklyFrequency` from `insights.ts`: the cutoff is
`addDaysUTC(today, -27)`, the loop counts the keys at or after the cutoff,
and the count is divided by 4. -/
def calculateWeeklyFrequency (dateKeys : Finset Int) (today : Int) : Rat :=
  if dateKeys.card = 0 then 0
  else
    let cutoff := addDaysUTC today (-27)
    let count := dateKeys.sum (fun key => if cutoff ≤ key then (1 : Nat) else 0)
    (count : Rat) / 4

/-- Mirrors the `WeekdayDistribution` shape of `types/insights`. -/
structure WeekdayDistribution where
  mon : Nat
  tue : Nat
  wed : Nat
  thu : Nat
  fri : Nat
  sat : Nat
  sun : Nat
deriving Repr, DecidableEq

/-- Embeds one iteration of the `switch (date.getUTCDay())` statement of
`buildWeekdayDistribution` (case 0 and the default branch both bump `sun`). -/
def bumpWeekday (dist : WeekdayDistribution) (date : Int) : WeekdayDistribution :=
  if getUTCDay date = 1 then { dist with mon := dist.mon + 1 }
  else if getUTCDay date = 2 then { dist with tue := dist.tue + 1 }
  else if getUTCDay date = 3 then { dist with wed := dist.wed + 1 }
  else if getUTCDay date = 4 then { dist with thu := dist.thu + 1 }
  else if getUTCDay date = 5 then { dist with fri := dist.fri + 1 }
  else if getUTCDay date = 6 then { dist with sat := dist.sat + 1 }
  else { dist with sun := dist.sun + 1 }

/-- Embeds `buildWeekdayDistribution` from `insights.ts`. -/
def buildWeekdayDistribution (dates : List Int) : WeekdayDistribution :=
  dates.foldl bumpWeekday ⟨0, 0, 0, 0, 0, 0, 0⟩

/-- Mirrors `ReadingRecord` (`types/record`), restricted to the fields the
insights engine reads.  `readDate` and `createdAt` hold the outcome of
JavaScript date parsing of the raw strings (`none` = unparseable), at
calendar-day granularity.  `bookTitle` is `none` when the payload carries
`null`/`undefined` (the source applies `?? ''` to it). -/
structure ReadingRecord where
  readDate : Option Int
  createdAt : Option Int
  bookIsbn : String
  bookTitle : Option String
deriving Repr, DecidableEq

/-- Embeds the record-scanning loop of `buildInsightsFromUserData`
(lines 215-223): `parseRecordDate(record.readDate)` either yields a date that
is pushed onto `recordDates`, or the record is skipped (`continue`).
`createdAt` is never consulted there. -/
def collectRecordDates (records : List ReadingRecord) : List Int :=
  records.filterMap (fun record => record.readDate)

/-- Mirrors the `{ isbn, title, recordCount }` entries of the `bookMap`. -/
structure TopBook where
  isbn : String
  title : String
  recordCount : Nat
deriving Repr, DecidableEq

/-- Embeds one `bookMap` update of `buildInsightsFromUserData`
(lines 242-254) on the insertion-ordered entry list: an existing entry for
the same isbn gets `recordCount += 1` and, when its title is still empty and
the record carries a non-empty title, that title; otherwise a fresh entry
`{ isbn, title: record.bookTitle ?? '', recordCount: 1 }` is appended (a
JavaScript `Map` iterates in insertion order). -/
def bookMapInsert : List TopBook → ReadingRecord → List TopBook
  | [], record => [⟨record.bookIsbn, record.bookTitle.getD "", 1⟩]
  | entry :: rest, record =>
    if entry.isbn = record.bookIsbn then
      { entry with
        recordCount := entry.recordCount + 1
        title :=
          match record.bookTitle with
          | some t => if entry.title = "" ∧ t ≠ "" then t else entry.title
          | none => entry.title } :: rest
    else
      entry :: bookMapInsert rest record

/-- Embeds the `for (const record of records)` grouping loop
(lines 239-255): records with an empty `bookIsbn` are skipped
(`if (!isbn) continue`). -/
def buildBookMap (records : List ReadingRecord) : List TopBook :=
  records.foldl
    (fun entries record =>
      if record.bookIsbn = "" then entries else bookMapInsert entries record)
    []

/-- Embeds the placement of one entry by the stable descending sort
`.sort((a, b) => b.recordCount - a.recordCount)`: the entry goes before the
first already-placed entry with a count not larger than its own, so that
earlier entries stay ahead of later ones on ties. -/
def insertByCount (x : TopBook) : List TopBook → List TopBook
  | [] => [x]
  | y :: ys =>
    if y.recordCount ≤ x.recordCount then x :: y :: ys
    else y :: insertByCount x ys

/-- Embeds the stable descending sort of the book entries.  ECMAScript
`Array.prototype.sort` is required to be stable, and a stable sort by a total
preorder has a unique result, so this insertion sort computes exactly the
list the source produces. -/
def sortByCountDesc : List TopBook → List TopBook
  | [] => []
  | x :: xs => insertByCount x (sortByCountDesc xs)

/-- Embeds `topBooks` (lines 257-259): sort the map entries by descending
count and `slice(0, 3)`. -/
def topBooksOf (records : List ReadingRecord) : List TopBook :=
  (sortByCountDesc (buildBookMap records)).take 3

/-- Mirrors `Group` (`types/group`), restricted to the `id` field the
insights engine reads. -/
structure Group where
  id : String
deriving Repr, DecidableEq

/-- Mirrors `FinishedGroup` (`types/group`), restricted to `groupId`. -/
structure FinishedGroup where
  groupId : String
deriving Repr, DecidableEq

/-- Mirrors `Sentence` (`types/sentence`), restricted to the `userId` field
used by `fetchUserSentences`. -/
structure Sentence where
  userId : String
deriving Repr, DecidableEq

/-- Embeds `activeGroups` (line 232): the number of groups whose id is not in
the `finishedGroupIds` set. -/
def activeGroupsCount (groups : List Group) (finishedBooks : List FinishedGroup) : Nat :=
  (groups.filter
    (fun group => decide (group.id ∉ finishedBooks.map (fun item => item.groupId)))).length

/-- Embeds `completionRate` (lines 233-236), with the explicit guard against
a zero denominator. -/
def completionRate (groups : List Group) (finishedBooks : List FinishedGroup) : Rat :=
  if finishedBooks.length + activeGroupsCount groups finishedBooks = 0 then 0
  else
    (finishedBooks.length : Rat) /
      ((finishedBooks.length : Rat) + (activeGroupsCount groups finishedBooks : Rat))

/-- Embeds `Math.round(insights.completion.completionRate * 100)` from
`buildInsightsFallbackSummary` (line 284); JavaScript `Math.round x` is
`⌊x + 1/2⌋`. -/
def completionRatePercent (rate : Rat) : Int :=
  ⌊rate * 100 + 1 / 2⌋

/-- Mirrors the `habit` part of `InsightsResponse`. -/
structure HabitInsights where
  totalReadingDays : Nat
  currentStreak : Nat
  bestStreak : Nat
  weeklyFrequency : Rat
  weekdayDistribution : WeekdayDistribution
deriving Repr, DecidableEq

/-- Mirrors the `completion` part of `InsightsResponse`. -/
structure CompletionInsights where
  finishedBooks : Nat
  activeGroups : Nat
  rate : Rat
  avgFinishDays : Option Rat
deriving Repr, DecidableEq

/-- Mirrors the `activity` part of `InsightsResponse`. -/
structure ActivityInsights where
  totalRecords : Nat
  totalSentences : Nat
  topBooks : List TopBook
deriving Repr, DecidableEq

/-- Mirrors `InsightsResponse` (`types/insights`). -/
structure InsightsResponse where
  habit : HabitInsights
  completion : CompletionInsights
  activity : ActivityInsights
deriving Repr, DecidableEq

/-- Embeds the pure assembly part of `buildInsightsFromUserData`
(lines 215-280), applied to the already-fetched data. -/
def buildInsights (records : List ReadingRecord) (groups : List Group)
    (finishedBooks : List FinishedGroup) (sentences : List Sentence)
    (today : Int) : InsightsResponse :=
  let recordDates := collectRecordDates records
  let uniqueDateKeys := recordDates.toFinset
  { habit :=
      { totalReadingDays := uniqueDateKeys.card
        currentStreak := calculateCurrentStreak uniqueDateKeys today
        bestStreak := calculateBestStreak uniqueDateKeys
        weeklyFrequency := calculateWeeklyFrequency uniqueDateKeys today
        weekdayDistribution := buildWeekdayDistribution recordDates }
    completion :=
      { finishedBooks := finishedBooks.length
        activeGroups := activeGroupsCount groups finishedBooks
        rate := completionRate groups finishedBooks
        avgFinishDays := none }
    activity :=
      { totalRecords := records.length
        totalSentences := sentences.length
        topBooks := topBooksOf records } }

/-- Mirrors the remote accessors the aggregator awaits, each of which either
resolves or rejects (`Except Unit`), plus the ambient clock. -/
structure Env where
  userId : Except Unit (Option String)
  groups : Except Unit (List Group)
  finishedBooks : Except Unit (List FinishedGroup)
  records : String → Except Unit (List ReadingRecord)
  groupSentences : String → Except Unit (List Sentence)
  remoteInsights : Except Unit InsightsResponse
  today : Int

/-- Embeds `fetchUserSentences` (lines 194-198): an empty group list yields
`[]` without any request; otherwise the per-group fetches are awaited
together (`Promise.all`, so a single rejection fails the batch), flattened,
and filtered to the sentences the given user authored. -/
def fetchUserSentences (env : Env) (userId : String)
    (groupIds : List String) : Except Unit (List Sentence) :=
  if groupIds.isEmpty then .ok []
  else
    match groupIds.mapM env.groupSentences with
    | .error e => .error e
    | .ok responses => .ok (responses.flatten.filter (fun s => s.userId == userId))

/-- Embeds `buildInsightsFromUserData` (lines 200-281): a missing user id
throws, every awaited fetch propagates its rejection, and only when all of
them resolve is the complete response assembled. -/
def buildInsightsFromUserData (env : Env) : Except Unit InsightsResponse :=
  match env.userId with
  | .error e => .error e
  | .ok none => .error ()
  | .ok (some userId) =>
    match env.groups with
    | .error e => .error e
    | .ok groups =>
      match env.finishedBooks with
      | .error e => .error e
      | .ok finishedBooks =>
        match env.records userId with
        | .error e => .error e
        | .ok records =>
          match fetchUserSentences env userId (groups.map (fun g => g.id)) with
          | .error e => .error e
          | .ok sentences =>
            .ok (buildInsights records groups finishedBooks sentences env.today)

/-- Embeds `fetchInsights` (lines 34-40): try the local aggregation and fall
back to the remote pre-computed endpoint `/api/insights` on any failure. -/
def fetchInsights (env : Env) : Except Unit InsightsResponse :=
  match buildInsightsFromUserData env with
  | .ok result => .ok result
  | .error _ => env.remoteInsights

/-! Specification-side definitions, written from the wording of the spec and
of the claims, to be compared with the embedded code. -/

/-- Lengths of the runs of a key list, with an open run of length `runLen`
ending at `prev`: per the spec, a run continues exactly when the next key is
one calendar day after the previous one. -/
def runLengthsGo (prev : Int) (runLen : Nat) : List Int → List Nat
  | [] => [runLen]
  | key :: rest =>
    if prev + 1 = key then runLengthsGo key (runLen + 1) rest
    else runLen :: runLengthsGo key 1 rest

/-- Lengths of the maximal consecutive-day runs of a key list (a single
isolated day is a run of length 1). -/
def runLengths : List Int → List Nat
  | [] => []
  | key :: rest => runLengthsGo key 1 rest

/-- Maximum run length of a key list, 0 for the empty list; per the spec,
`bestStreak` is this maximum over the ascending sorted key list. -/
def maxRunLength (keys : List Int) : Nat :=
  (runLengths keys).foldr max 0

/-- The weekly frequency as claim C3 words it: only DayKeys inside the
trailing 28-day window ending today, both bounds inclusive, are counted. -/
def specWeeklyFrequency (dateKeys : Finset Int) (today : Int) : Rat :=
  ((dateKeys.filter (fun k => today - 27 ≤ k ∧ k ≤ today)).card : Rat) / 4

/-- Number of records carrying the given isbn. -/
def isbnCount (records : List ReadingRecord) (isbn : String) : Nat :=
  (records.filter (fun r => r.bookIsbn == isbn)).length

/-- First non-empty title among the records carrying the given isbn. -/
def firstTitle (records : List ReadingRecord) (isbn : String) : Option String :=
  (records.filter (fun r => r.bookIsbn == isbn)).findSome?
    (fun r =>
      match r.bookTitle with
      | some t => if t = "" then none else some t
      | none => none)

/-- Entry of a book-map entry list for the given isbn, if any. -/
def lookupBook (entries : List TopBook) (isbn : String) : Option TopBook :=
  entries.find? (fun e => e.isbn == isbn)

/-- First-occurrence order of a list of keys: the order in which distinct
values are first encountered, per the tie-breaking wording of claim C5. -/
def firstOccurrences (l : List String) : List String :=
  l.foldl (fun acc i => if i ∈ acc then acc else acc ++ [i]) []

/-- Title resolution across a record list, as the grouping loop performs it:
an empty running title is replaced by the first non-empty title among the
remaining records carrying the isbn, a non-empty one is kept. -/
def combineTitle (t : String) (records : List ReadingRecord) (isbn : String) : String :=
  if t = "" then (firstTitle records isbn).getD "" else t

/-! Helper lemmas about the current-streak loop. -/

theorem filter_le_card_lt (dateKeys : Finset Int) (cursor : Int)
    (h : cursor ∈ dateKeys) :
    (dateKeys.filter (fun k => k ≤ cursor - 1)).card <
      (dateKeys.filter (fun k => k ≤ cursor)).card := by
  apply Finset.card_lt_card
  rw [Finset.ssubset_def]
  constructor
  · intro x hx
    rw [Finset.mem_filter] at hx ⊢
    exact ⟨hx.1, by omega⟩
  · intro hsub
    have hc := hsub (Finset.mem_filter.mpr ⟨h, le_refl cursor⟩)
    rw [Finset.mem_filter] at hc
    omega

theorem streakFrom_of_not_mem {dateKeys : Finset Int} {cursor : Int}
    (h : cursor ∉ dateKeys) : streakFrom dateKeys cursor = 0 := by
  rw [streakFrom]
  simp [h]

theorem streakFrom_of_mem {dateKeys : Finset Int} {cursor : Int}
    (h : cursor ∈ dateKeys) :
    streakFrom dateKeys cursor = streakFrom dateKeys (cursor - 1) + 1 := by
  rw [streakFrom]
  simp [h]

/-- Every day hit while walking backward is in the set. -/
theorem streakFrom_mem (dateKeys : Finset Int) :
    ∀ (i : Nat) (cursor : Int), i < streakFrom dateKeys cursor →
      cursor - (i : Int) ∈ dateKeys := by
  intro i
  induction i with
  | zero =>
    intro cursor h
    by_cases hc : cursor ∈ dateKeys
    · simpa using hc
    · rw [streakFrom_of_not_mem hc] at h
      omega
  | succ j ih =>
    intro cursor h
    by_cases hc : cursor ∈ dateKeys
    · rw [streakFrom_of_mem hc] at h
      have hj := ih (cursor - 1) (by omega)
      have : cursor - ((j : Int) + 1) = cursor - 1 - (j : Int) := by ring
      rw [Nat.cast_succ, this]
      exact hj
    · rw [streakFrom_of_not_mem hc] at h
      omega

/-- The first day after the walk is outside the set. -/
theorem streakFrom_miss (dateKeys : Finset Int) (cursor : Int) :
    cursor - (streakFrom dateKeys cursor : Int) ∉ dateKeys := by
  suffices h : ∀ (n : Nat) (c : Int), (dateKeys.filter (fun k => k ≤ c)).card ≤ n →
      c - (streakFrom dateKeys c : Int) ∉ dateKeys by
    exact h (dateKeys.filter (fun k => k ≤ cursor)).card cursor le_rfl
  intro n
  induction n with
  | zero =>
    intro c hc
    by_cases h : c ∈ dateKeys
    · exfalso
      have : c ∈ dateKeys.filter (fun k => k ≤ c) :=
        Finset.mem_filter.mpr ⟨h, le_refl c⟩
      have := Finset.card_pos.mpr ⟨c, this⟩
      omega
    · rw [streakFrom_of_not_mem h]
      simpa using h
  | succ n ih =>
    intro c hc
    by_cases h : c ∈ dateKeys
    · rw [streakFrom_of_mem h]
      have hlt := filter_le_card_lt dateKeys c h
      have hmiss := ih (c - 1) (by omega)
      have : c - ((streakFrom dateKeys (c - 1) + 1 : Nat) : Int) =
          c - 1 - (streakFrom dateKeys (c - 1) : Int) := by
        push_cast
        ring
      rw [this]
      exact hmiss
    · rw [streakFrom_of_not_mem h]
      simpa using h

/-- C1: for every set of DayKeys and every UTC "today", `currentStreak`
counts the consecutive calendar days, walking backward from today, whose
DayKey is in the set: every day it counts is present, the first day past
the count is missing, an absent today gives streak 0, and the empty set
gives 0. -/
theorem claim_C1_currentStreak_walks_back (dateKeys : Finset Int) (today : Int) :
    (∀ i : Nat, i < calculateCurrentStreak dateKeys today →
        today - (i : Int) ∈ dateKeys)
    ∧ today - (calculateCurrentStreak dateKeys today : Int) ∉ dateKeys
    ∧ (today ∉ dateKeys → calculateCurrentStreak dateKeys today = 0)
    ∧ (dateKeys = ∅ → calculateCurrentStreak dateKeys today = 0) := by
  refine ⟨?_, ?_, ?_, ?_⟩
  · intro i hi
    unfold calculateCurrentStreak at hi
    by_cases h : dateKeys.card = 0
    · rw [if_pos h] at hi
      omega
    · rw [if_neg h] at hi
      exact streakFrom_mem dateKeys i today hi
  · unfold calculateCurrentStreak
    by_cases h : dateKeys.card = 0
    · rw [if_pos h]
      have : dateKeys = ∅ := Finset.card_eq_zero.mp h
      simp [this]
    · rw [if_neg h]
      exact streakFrom_miss dateKeys today
  · intro h
    unfold calculateCurrentStreak
    by_cases hc : dateKeys.card = 0
    · rw [if_pos hc]
    · rw [if_neg hc]
      exact streakFrom_of_not_mem h
  · intro h
    unfold calculateCurrentStreak
    simp [h]

/-- Witness for C1 at a concrete input: with keys for days 1 and 3 and
today = 3, the streak is 1, day 2 is the first missing day, and day 3 is
counted. -/
theorem claim_C1_witness :
    calculateCurrentStreak ({1, 3} : Finset Int) 3 = 1 ∧
      (3 : Int) - (1 : Nat) ∉ ({1, 3} : Finset Int) ∧
      (3 : Int) - (0 : Nat) ∈ ({1, 3} : Finset Int) := by
  have h := claim_C1_currentStreak_walks_back ({1, 3} : Finset Int) 3
  have h1 : calculateCurrentStreak ({1, 3} : Finset Int) 3 = 1 := by
    have hmem := h.1
    have hmiss := h.2.1
    by_contra hne
    rcases Nat.lt_or_ge (calculateCurrentStreak ({1, 3} : Finset Int) 3) 1 with hlt | hge
    · have h0 : calculateCurrentStreak ({1, 3} : Finset Int) 3 = 0 := by omega
      rw [h0] at hmiss
      simp at hmiss
    · have h2 : 2 ≤ calculateCurrentStreak ({1, 3} : Finset Int) 3 := by omega
      have := hmem 1 (by omega)
      simp at this
  refine ⟨h1, ?_, ?_⟩
  · rw [h1] at h
    simp only [Nat.cast_one]
    exact h.2.1
  · exact h.1 0 (by rw [h1]; omega)

/-! Helper lemmas about the best-streak scan. -/

theorem le_foldr_max {l : List Nat} {n : Nat} (h : n ∈ l) : n ≤ l.foldr max 0 := by
  induction l with
  | nil => simp at h
  | cons a l ih =>
    rcases List.mem_cons.mp h with rfl | hmem
    · simp only [List.foldr_cons]
      omega
    · have := ih hmem
      simp only [List.foldr_cons]
      omega

/-- The open run keeps growing, so its seed bounds the final maximum. -/
theorem seed_le_foldr_runLengthsGo (l : List Int) :
    ∀ (prev : Int) (runLen : Nat),
      runLen ≤ (runLengthsGo prev runLen l).foldr max 0 := by
  induction l with
  | nil =>
    intro prev runLen
    simp [runLengthsGo]
  | cons key rest ih =>
    intro prev runLen
    rw [runLengthsGo]
    by_cases h : prev + 1 = key
    · rw [if_pos h]
      have := ih key (runLen + 1)
      omega
    · rw [if_neg h]
      simp only [List.foldr_cons]
      omega

/-- The scan loop with a previous key computes the maximum of the incoming
best and of the run lengths still ahead (with the open run seeded). -/
theorem bestStreakLoop_eq_runLengths (l : List Int) :
    ∀ (prev : Int) (best current : Nat), current ≤ best →
      bestStreakLoop l best current (some prev)
        = max best ((runLengthsGo prev current l).foldr max 0) := by
  induction l with
  | nil =>
    intro prev best current h
    simp only [bestStreakLoop, runLengthsGo, List.foldr_cons, List.foldr_nil]
    omega
  | cons key rest ih =>
    intro prev best current h
    rw [bestStreakLoop, runLengthsGo]
    by_cases hk : prev + 1 = key
    · simp only [if_pos hk]
      have hseed := seed_le_foldr_runLengthsGo rest key (current + 1)
      have hle : current + 1 ≤ if best < current + 1 then current + 1 else best := by
        split <;> omega
      rw [ih key _ (current + 1) hle]
      split <;> omega
    · simp only [if_neg hk]
      have hseed := seed_le_foldr_runLengthsGo rest key 1
      have hle : 1 ≤ if best < 1 then 1 else best := by
        split <;> omega
      rw [ih key _ 1 hle]
      simp only [List.foldr_cons]
      split <;> omega

/-- The best-streak fold over any key list computes the maximum run length. -/
theorem bestStreakLoop_eq_maxRunLength (keys : List Int) :
    bestStreakLoop keys 0 0 none = maxRunLength keys := by
  cases keys with
  | nil => simp [bestStreakLoop, maxRunLength, runLengths]
  | cons key rest =>
    rw [bestStreakLoop]
    show bestStreakLoop rest 1 1 (some key) = maxRunLength (key :: rest)
    rw [bestStreakLoop_eq_runLengths rest key 1 1 le_rfl]
    have := seed_le_foldr_runLengthsGo rest key 1
    simp only [maxRunLength, runLengths]
    omega

/-- Shared form of claim C2: `calculateBestStreak` is the maximum run length
of the ascending sorted key list. -/
theorem calculateBestStreak_eq_maxRunLength (dateKeys : Finset Int) :
    calculateBestStreak dateKeys = maxRunLength (dateKeys.sort (· ≤ ·)) := by
  unfold calculateBestStreak
  by_cases h : dateKeys.card = 0
  · rw [if_pos h]
    have : dateKeys = ∅ := Finset.card_eq_zero.mp h
    simp [this, maxRunLength, runLengths]
  · rw [if_neg h]
    exact bestStreakLoop_eq_maxRunLength _

/-- C2: for every set of DayKeys, `bestStreak` equals the maximum run length
of the keys scanned in ascending sorted order, where a run continues exactly
when the next key is one calendar day after the previous one; the empty set
gives 0 and a single isolated day gives 1. -/
theorem claim_C2_bestStreak_is_max_run (dateKeys : Finset Int) :
    calculateBestStreak dateKeys = maxRunLength (dateKeys.sort (· ≤ ·))
    ∧ (dateKeys = ∅ → calculateBestStreak dateKeys = 0)
    ∧ (∀ a : Int, dateKeys = {a} → calculateBestStreak dateKeys = 1) := by
  refine ⟨calculateBestStreak_eq_maxRunLength dateKeys, ?_, ?_⟩
  · intro h
    rw [calculateBestStreak_eq_maxRunLength, h]
    simp [maxRunLength, runLengths]
  · intro a h
    rw [calculateBestStreak_eq_maxRunLength, h, Finset.sort_singleton]
    simp [maxRunLength, runLengths, runLengthsGo]

/-- Witness for C2 at concrete inputs: keys for days 1 and 3 with a gap give
best streak 1, matching the maximum run length of the sorted list, the empty
set gives 0, and a singleton gives 1. -/
theorem claim_C2_witness :
    calculateBestStreak ({1, 3} : Finset Int)
        = maxRunLength (({1, 3} : Finset Int).sort (· ≤ ·))
      ∧ calculateBestStreak (∅ : Finset Int) = 0
      ∧ calculateBestStreak ({5} : Finset Int) = 1 := by
  refine ⟨(claim_C2_bestStreak_is_max_run ({1, 3} : Finset Int)).1, ?_, ?_⟩
  · exact (claim_C2_bestStreak_is_max_run (∅ : Finset Int)).2.1 rfl
  · exact (claim_C2_bestStreak_is_max_run ({5} : Finset Int)).2.2 5 rfl

/-! Relating the best-streak scan to the backward walks of the current
streak: over the sorted list of a set, the running `current` of the scan is
exactly the backward-walk length ending at the key just processed. -/

theorem bestStreakLoop_eq_sup (S : Finset Int) :
    ∀ (l : List Int) (prev : Int) (best current : Nat),
      (prev :: l).Pairwise (· < ·) →
      (∀ x ∈ l, x ∈ S) →
      (∀ x ∈ S, prev < x → x ∈ l) →
      current = streakFrom S prev →
      current ≤ best →
      bestStreakLoop l best current (some prev)
        = max best
            (((prev :: l).map (fun k => streakFrom S k)).foldr max 0) := by
  intro l
  induction l with
  | nil =>
    intro prev best current _ _ _ hcur h
    simp only [bestStreakLoop, List.map_cons, List.map_nil, List.foldr_cons,
      List.foldr_nil]
    omega
  | cons key rest ih =>
    intro prev best current hpair hmem hcomp hcur h
    have hpk : prev < key := (List.pairwise_cons.mp hpair).1 key (List.mem_cons_self key rest)
    have hpair' : (key :: rest).Pairwise (· < ·) := (List.pairwise_cons.mp hpair).2
    have hkeyS : key ∈ S := hmem key (List.mem_cons_self key rest)
    have hmem' : ∀ x ∈ rest, x ∈ S := fun x hx => hmem x (List.mem_cons_of_mem key hx)
    have hcomp' : ∀ x ∈ S, key < x → x ∈ rest := by
      intro x hx hlt
      have hxin : x ∈ key :: rest := hcomp x hx (lt_trans hpk hlt)
      rcases List.mem_cons.mp hxin with heq | htail
      · omega
      · exact htail
    rw [bestStreakLoop]
    by_cases hk : prev + 1 = key
    · have hkey : streakFrom S key = current + 1 := by
        rw [streakFrom_of_mem hkeyS]
        have he : key - 1 = prev := by omega
        rw [he, ← hcur]
      simp only [if_pos hk]
      rw [ih key (if best < current + 1 then current + 1 else best) (current + 1)
        hpair' hmem' hcomp' hkey.symm (by split <;> omega)]
      simp only [List.map_cons, List.foldr_cons]
      rw [hkey, ← hcur]
      split <;> omega
    · have hout : key - 1 ∉ S := by
        intro hin
        have hxin : key - 1 ∈ key :: rest := hcomp (key - 1) hin (by omega)
        rcases List.mem_cons.mp hxin with heq | htail
        · omega
        · have := (List.pairwise_cons.mp hpair').1 (key - 1) htail
          omega
      have hkey : streakFrom S key = 1 := by
        rw [streakFrom_of_mem hkeyS, streakFrom_of_not_mem hout]
      simp only [if_neg hk]
      rw [ih key (if best < 1 then 1 else best) 1
        hpair' hmem' hcomp' hkey.symm (by split <;> omega)]
      simp only [List.map_cons, List.foldr_cons]
      rw [hkey, ← hcur]
      split <;> omega

/-- The smallest element of the sorted list starts a backward walk of
length 1. -/
theorem streakFrom_sort_head (S : Finset Int) (a : Int) (l : List Int)
    (hsort : S.sort (· ≤ ·) = a :: l) : streakFrom S a = 1 := by
  have hmemA : a ∈ S := by
    rw [← Finset.mem_sort (α := Int) (· ≤ ·), hsort]
    exact List.mem_cons_self a l
  have hpair : (a :: l).Pairwise (· < ·) := by
    have := Finset.sort_sorted_lt S
    rw [hsort] at this
    exact this
  have hout : a - 1 ∉ S := by
    intro hin
    have : a - 1 ∈ a :: l := by
      rw [← hsort, Finset.mem_sort (α := Int) (· ≤ ·)]
      exact hin
    rcases List.mem_cons.mp this with heq | htail
    · omega
    · have := (List.pairwise_cons.mp hpair).1 (a - 1) htail
      omega
  rw [streakFrom_of_mem hmemA, streakFrom_of_not_mem hout]

/-- C8: for every set of DayKeys and every UTC "today", the best streak is
at least the current streak. -/
theorem claim_C8_bestStreak_ge_currentStreak (dateKeys : Finset Int) (today : Int) :
    calculateCurrentStreak dateKeys today ≤ calculateBestStreak dateKeys := by
  by_cases hcard : dateKeys.card = 0
  · simp [calculateCurrentStreak, calculateBestStreak, hcard]
  · rw [calculateCurrentStreak, if_neg hcard, calculateBestStreak, if_neg hcard]
    by_cases ht : today ∈ dateKeys
    · obtain ⟨a, l, hsort⟩ : ∃ a l, dateKeys.sort (· ≤ ·) = a :: l := by
        cases hs : dateKeys.sort (· ≤ ·) with
        | nil =>
          exfalso
          have := Finset.length_sort (α := Int) (· ≤ ·) (s := dateKeys)
          rw [hs] at this
          simp at this
          omega
        | cons a l => exact ⟨a, l, rfl⟩
      have hpair : (a :: l).Pairwise (· < ·) := by
        have := Finset.sort_sorted_lt dateKeys
        rw [hsort] at this
        exact this
      have hmem : ∀ x ∈ l, x ∈ dateKeys := by
        intro x hx
        rw [← Finset.mem_sort (α := Int) (· ≤ ·), hsort]
        exact List.mem_cons_of_mem a hx
      have hcomp : ∀ x ∈ dateKeys, a < x → x ∈ l := by
        intro x hx hlt
        have : x ∈ a :: l := by
          rw [← hsort, Finset.mem_sort (α := Int) (· ≤ ·)]
          exact hx
        rcases List.mem_cons.mp this with heq | htail
        · omega
        · exact htail
      rw [hsort, bestStreakLoop]
      show streakFrom dateKeys today ≤ bestStreakLoop l 1 1 (some a)
      rw [bestStreakLoop_eq_sup dateKeys l a 1 1 hpair hmem hcomp
        (streakFrom_sort_head dateKeys a l hsort).symm le_rfl]
      have htodaymem : today ∈ a :: l := by
        rw [← hsort, Finset.mem_sort (α := Int) (· ≤ ·)]
        exact ht
      have hin : streakFrom dateKeys today ∈
          (a :: l).map (fun k => streakFrom dateKeys k) :=
        List.mem_map_of_mem (fun k => streakFrom dateKeys k) htodaymem
      have := le_foldr_max hin
      omega
    · rw [streakFrom_of_not_mem ht]
      omega

/-! Weekly frequency: counterexample to the claimed upper window bound, and
the window the code actually applies. -/

/-- C3 counterexample: the claim says no key later than today is counted,
but for the key set containing only the day after today the code counts
that key and yields 1/4, while the claimed trailing-window count yields 0. -/
theorem claim_C3_counterexample :
    calculateWeeklyFrequency ({1} : Finset Int) 0
        ≠ specWeeklyFrequency ({1} : Finset Int) 0
      ∧ calculateWeeklyFrequency ({1} : Finset Int) 0 = 1 / 4
      ∧ specWeeklyFrequency ({1} : Finset Int) 0 = 0 := by
  have h1 : calculateWeeklyFrequency ({1} : Finset Int) 0 = 1 / 4 := by
    rw [calculateWeeklyFrequency]
    norm_num [addDaysUTC, Finset.filter_singleton]
  have h2 : specWeeklyFrequency ({1} : Finset Int) 0 = 0 := by
    rw [specWeeklyFrequency]
    norm_num [Finset.filter_singleton]
  refine ⟨?_, h1, h2⟩
  rw [h1, h2]
  norm_num

/-- C3 amended: `weeklyFrequency` equals the number of distinct DayKeys
dated on or after today minus 27 days (keys dated after today are counted
too, the window has no upper bound), divided by exactly 4. -/
theorem claim_C3_amended_weeklyFrequency (dateKeys : Finset Int) (today : Int) :
    calculateWeeklyFrequency dateKeys today
      = ((dateKeys.filter (fun k => today - 27 ≤ k)).card : Rat) / 4 := by
  rw [calculateWeeklyFrequency]
  by_cases h : dateKeys.card = 0
  · rw [if_pos h]
    have he : dateKeys = ∅ := Finset.card_eq_zero.mp h
    subst he
    simp
  · rw [if_neg h]
    have hsum : (dateKeys.sum (fun key => if addDaysUTC today (-27) ≤ key then (1 : Nat) else 0))
        = (dateKeys.filter (fun k => today - 27 ≤ k)).card := by
      rw [Finset.card_filter]
      apply Finset.sum_congr rfl
      intro x _
      have hiff : (addDaysUTC today (-27) ≤ x) ↔ (today - 27 ≤ x) := by
        rw [addDaysUTC]
        omega
      simp only [hiff]
    show ((dateKeys.sum (fun key => if addDaysUTC today (-27) ≤ key then (1 : Nat) else 0) : Nat) : Rat) / 4
        = ((dateKeys.filter (fun k => today - 27 ≤ k)).card : Rat) / 4
    rw [hsum]

/-! Completion tracker. -/

theorem length_filter_not_add {α : Type} (l : List α) (p : α → Bool) :
    (l.filter (fun a => !(p a))).length + (l.filter p).length = l.length := by
  have h := List.length_eq_length_filter_add (l := l) p
  omega

/-- C6: `completionRate` is finished books over finished plus active groups,
where the active groups are exactly the groups whose id is not in the
finished set (equivalently, active and finished-listed groups partition the
group list), and a zero denominator yields 0 rather than a division error. -/
theorem claim_C6_completionRate (groups : List Group) (finishedBooks : List FinishedGroup) :
    completionRate groups finishedBooks
        = (finishedBooks.length : Rat) /
            ((finishedBooks.length : Rat) + (activeGroupsCount groups finishedBooks : Rat))
      ∧ (finishedBooks.length + activeGroupsCount groups finishedBooks = 0 →
          completionRate groups finishedBooks = 0)
      ∧ activeGroupsCount groups finishedBooks
          + (groups.filter
              (fun g => decide (g.id ∈ finishedBooks.map (fun item => item.groupId)))).length
          = groups.length := by
  refine ⟨?_, ?_, ?_⟩
  · rw [completionRate]
    by_cases h : finishedBooks.length + activeGroupsCount groups finishedBooks = 0
    · rw [if_pos h]
      have h1 : finishedBooks.length = 0 := by omega
      have h2 : activeGroupsCount groups finishedBooks = 0 := by omega
      rw [h1, h2]
      norm_num
    · rw [if_neg h]
  · intro h
    rw [completionRate, if_pos h]
  · have := length_filter_not_add groups
      (fun g => decide (g.id ∈ finishedBooks.map (fun item => item.groupId)))
    rw [activeGroupsCount]
    have hcongr :
        (groups.filter
            (fun g => decide (g.id ∉ finishedBooks.map (fun item => item.groupId))))
          = (groups.filter
            (fun g => !(decide (g.id ∈ finishedBooks.map (fun item => item.groupId))))) := by
      apply List.filter_congr
      intro g _
      rw [decide_not]
    rw [hcongr]
    exact this

/-- Witness for C6 at a concrete input: with no groups and no finished
books the denominator is 0 and the rate is 0, with no error. -/
theorem claim_C6_witness :
    completionRate ([] : List Group) ([] : List FinishedGroup) = 0 :=
  (claim_C6_completionRate [] []).2.1 (by decide)

/-- C10: the completion rate always lies in [0, 1], and the percentage the
fallback summary renders from it (`Math.round(rate * 100)`) lies in
[0, 100]. -/
theorem claim_C10_completionRate_bounds (groups : List Group)
    (finishedBooks : List FinishedGroup) :
    0 ≤ completionRate groups finishedBooks
      ∧ completionRate groups finishedBooks ≤ 1
      ∧ 0 ≤ completionRatePercent (completionRate groups finishedBooks)
      ∧ completionRatePercent (completionRate groups finishedBooks) ≤ 100 := by
  have h0 : 0 ≤ completionRate groups finishedBooks := by
    rw [completionRate]
    split
    · exact le_refl 0
    · positivity
  have h1 : completionRate groups finishedBooks ≤ 1 := by
    rw [completionRate]
    split
    · norm_num
    · rename_i h
      have hpos : (0 : Rat) < (finishedBooks.length : Rat)
          + (activeGroupsCount groups finishedBooks : Rat) := by
        have : 0 < finishedBooks.length + activeGroupsCount groups finishedBooks := by omega
        exact_mod_cast this
      rw [div_le_one hpos]
      have : (0 : Rat) ≤ (activeGroupsCount groups finishedBooks : Rat) := by positivity
      linarith
  refine ⟨h0, h1, ?_, ?_⟩
  · rw [completionRatePercent]
    have : (0 : Rat) ≤ completionRate groups finishedBooks * 100 + 1 / 2 := by
      nlinarith
    exact Int.le_floor.mpr (by exact_mod_cast this)
  · rw [completionRatePercent]
    have hlt : completionRate groups finishedBooks * 100 + 1 / 2 < (101 : Int) := by
      push_cast
      nlinarith
    have := Int.floor_lt.mpr hlt
    omega


/-! Stable descending sort of the book entries: sortedness, permutation,
and the filter characterization of stability (entries of any fixed count
keep their relative order). -/

theorem mem_insertByCount {a x : TopBook} {l : List TopBook} :
    a ∈ insertByCount x l ↔ a = x ∨ a ∈ l := by
  induction l with
  | nil => simp [insertByCount]
  | cons y ys ih =>
    rw [insertByCount]
    by_cases h : y.recordCount ≤ x.recordCount
    · rw [if_pos h]
      simp [List.mem_cons]
    · rw [if_neg h]
      simp only [List.mem_cons, ih]
      tauto

theorem insertByCount_pairwise {x : TopBook} {l : List TopBook}
    (h : l.Pairwise (fun a b => b.recordCount ≤ a.recordCount)) :
    (insertByCount x l).Pairwise (fun a b => b.recordCount ≤ a.recordCount) := by
  induction l with
  | nil => simp [insertByCount]
  | cons y ys ih =>
    rw [insertByCount]
    have hy := (List.pairwise_cons.mp h).1
    have hys := (List.pairwise_cons.mp h).2
    by_cases hc : y.recordCount ≤ x.recordCount
    · rw [if_pos hc]
      refine List.pairwise_cons.mpr ⟨?_, h⟩
      intro b hb
      rcases List.mem_cons.mp hb with rfl | hbys
      · exact hc
      · exact le_trans (hy b hbys) hc
    · rw [if_neg hc]
      refine List.pairwise_cons.mpr ⟨?_, ih hys⟩
      intro b hb
      rcases mem_insertByCount.mp hb with rfl | hbys
      · omega
      · exact hy b hbys

theorem sortByCountDesc_pairwise (l : List TopBook) :
    (sortByCountDesc l).Pairwise (fun a b => b.recordCount ≤ a.recordCount) := by
  induction l with
  | nil => simp [sortByCountDesc]
  | cons x xs ih =>
    rw [sortByCountDesc]
    exact insertByCount_pairwise ih

theorem insertByCount_perm (x : TopBook) (l : List TopBook) :
    List.Perm (insertByCount x l) (x :: l) := by
  induction l with
  | nil => rfl
  | cons y ys ih =>
    rw [insertByCount]
    by_cases h : y.recordCount ≤ x.recordCount
    · rw [if_pos h]
    · rw [if_neg h]
      exact List.Perm.trans (List.Perm.cons y ih) (List.Perm.swap x y ys)

theorem sortByCountDesc_perm (l : List TopBook) :
    List.Perm (sortByCountDesc l) l := by
  induction l with
  | nil => rfl
  | cons x xs ih =>
    rw [sortByCountDesc]
    exact List.Perm.trans (insertByCount_perm x (sortByCountDesc xs)) (List.Perm.cons x ih)

theorem insertByCount_filter_count (x : TopBook) (l : List TopBook) (c : Nat) :
    (insertByCount x l).filter (fun e => decide (e.recordCount = c))
      = (x :: l).filter (fun e => decide (e.recordCount = c)) := by
  induction l with
  | nil => rfl
  | cons y ys ih =>
    rw [insertByCount]
    by_cases h : y.recordCount ≤ x.recordCount
    · rw [if_pos h]
    · rw [if_neg h]
      by_cases hy : y.recordCount = c <;> by_cases hx : x.recordCount = c
      · omega
      all_goals simp [List.filter_cons, hx, hy, ih]

theorem sortByCountDesc_filter_count (l : List TopBook) (c : Nat) :
    (sortByCountDesc l).filter (fun e => decide (e.recordCount = c))
      = l.filter (fun e => decide (e.recordCount = c)) := by
  induction l with
  | nil => rfl
  | cons x xs ih =>
    rw [sortByCountDesc, insertByCount_filter_count]
    simp only [List.filter_cons, ih]


/-! Grouping loop: the entry that accumulates behind each isbn. -/

theorem isbnCount_cons_eq {r : ReadingRecord} {rs : List ReadingRecord} {isbn : String}
    (h : r.bookIsbn = isbn) : isbnCount (r :: rs) isbn = isbnCount rs isbn + 1 := by
  simp [isbnCount, List.filter_cons, h]

theorem isbnCount_cons_ne {r : ReadingRecord} {rs : List ReadingRecord} {isbn : String}
    (h : r.bookIsbn ≠ isbn) : isbnCount (r :: rs) isbn = isbnCount rs isbn := by
  simp [isbnCount, List.filter_cons, h]

theorem firstTitle_cons_eq {r : ReadingRecord} {rs : List ReadingRecord} {isbn : String}
    (h : r.bookIsbn = isbn) :
    firstTitle (r :: rs) isbn
      = match r.bookTitle with
        | some t => if t = "" then firstTitle rs isbn else some t
        | none => firstTitle rs isbn := by
  cases ht : r.bookTitle with
  | none => simp [firstTitle, List.filter_cons, h, ht]
  | some t =>
    by_cases htt : t = "" <;>
      simp [firstTitle, List.filter_cons, h, ht, htt]

theorem firstTitle_cons_ne {r : ReadingRecord} {rs : List ReadingRecord} {isbn : String}
    (h : r.bookIsbn ≠ isbn) : firstTitle (r :: rs) isbn = firstTitle rs isbn := by
  simp [firstTitle, List.filter_cons, h]

theorem combineTitle_cons_ne {t : String} {r : ReadingRecord} {rs : List ReadingRecord}
    {isbn : String} (h : r.bookIsbn ≠ isbn) :
    combineTitle t (r :: rs) isbn = combineTitle t rs isbn := by
  rw [combineTitle, combineTitle, firstTitle_cons_ne h]

theorem lookupBook_bookMapInsert_self (entries : List TopBook) (record : ReadingRecord) :
    lookupBook (bookMapInsert entries record) record.bookIsbn
      = some (match lookupBook entries record.bookIsbn with
          | some e =>
            { e with
              recordCount := e.recordCount + 1
              title :=
                match record.bookTitle with
                | some t => if e.title = "" ∧ t ≠ "" then t else e.title
                | none => e.title }
          | none => ⟨record.bookIsbn, record.bookTitle.getD "", 1⟩) := by
  induction entries with
  | nil => simp [bookMapInsert, lookupBook, List.find?]
  | cons entry rest ih =>
    rw [bookMapInsert]
    by_cases h : entry.isbn = record.bookIsbn
    · rw [if_pos h]
      simp [lookupBook, List.find?_cons, h]
    · rw [if_neg h]
      have hb : (entry.isbn == record.bookIsbn) = false := by
        simp [h]
      simp only [lookupBook, List.find?_cons, hb] at ih ⊢
      exact ih

theorem lookupBook_bookMapInsert_other (entries : List TopBook) (record : ReadingRecord)
    (isbn : String) (h : isbn ≠ record.bookIsbn) :
    lookupBook (bookMapInsert entries record) isbn = lookupBook entries isbn := by
  have hb0 : (record.bookIsbn == isbn) = false := by
    simp only [beq_eq_false_iff_ne, ne_eq]
    exact fun hh => h hh.symm
  induction entries with
  | nil => simp [bookMapInsert, lookupBook, List.find?, hb0]
  | cons entry rest ih =>
    rw [bookMapInsert]
    by_cases he : entry.isbn = record.bookIsbn
    · rw [if_pos he]
      have hne : (entry.isbn == isbn) = false := by
        simp only [beq_eq_false_iff_ne, ne_eq, he]
        exact fun hh => h hh.symm
      simp [lookupBook, List.find?_cons, hne]
    · rw [if_neg he]
      by_cases hei : entry.isbn = isbn
      · have hb2 : (entry.isbn == isbn) = true := by simp [hei]
        simp [lookupBook, List.find?_cons, hb2]
      · have hb2 : (entry.isbn == isbn) = false := by simp [hei]
        simp only [lookupBook, List.find?_cons, hb2]
        exact ih

theorem buildBookMap_foldl_lookup (records : List ReadingRecord) :
    ∀ (acc : List TopBook) (isbn : String), isbn ≠ "" →
      lookupBook
          (records.foldl
            (fun entries record =>
              if record.bookIsbn = "" then entries else bookMapInsert entries record)
            acc) isbn
        = match lookupBook acc isbn with
          | some e =>
            some { e with
              recordCount := e.recordCount + isbnCount records isbn
              title := combineTitle e.title records isbn }
          | none =>
            if isbnCount records isbn = 0 then none
            else some ⟨isbn, (firstTitle records isbn).getD "", isbnCount records isbn⟩ := by
  induction records with
  | nil =>
    intro acc isbn hne
    simp only [List.foldl_nil]
    cases hl : lookupBook acc isbn with
    | none => simp [hl, isbnCount]
    | some e =>
      obtain ⟨ei, et, ec⟩ := e
      by_cases het : et = "" <;>
        simp [isbnCount, combineTitle, firstTitle, het]
  | cons r rs ih =>
    intro acc isbn hne
    simp only [List.foldl_cons]
    by_cases hr : r.bookIsbn = ""
    · rw [if_pos hr]
      have hneq : r.bookIsbn ≠ isbn := by
        rw [hr]
        exact fun hh => hne hh.symm
      simp only [isbnCount_cons_ne hneq, combineTitle_cons_ne hneq, firstTitle_cons_ne hneq]
      exact ih acc isbn hne
    · rw [if_neg hr]
      by_cases hi : isbn = r.bookIsbn
      · subst hi
        rw [ih (bookMapInsert acc r) r.bookIsbn hne, lookupBook_bookMapInsert_self acc r]
        cases hl : lookupBook acc r.bookIsbn with
        | some e =>
          obtain ⟨ei, et, ec⟩ := e
          cases htb : r.bookTitle with
          | none =>
            simp only [isbnCount_cons_eq rfl, combineTitle, firstTitle_cons_eq rfl, htb]
            by_cases het : et = "" <;> simp [het] <;> omega
          | some t =>
            by_cases htt : t = "" <;> by_cases het : et = "" <;>
              simp only [isbnCount_cons_eq rfl, combineTitle, firstTitle_cons_eq rfl,
                htb, htt, het] <;>
              simp [htt, het] <;> omega
        | none =>
          cases htb : r.bookTitle with
          | none =>
            simp only [isbnCount_cons_eq rfl, combineTitle, firstTitle_cons_eq rfl, htb]
            simp
            omega
          | some t =>
            by_cases htt : t = "" <;>
              simp only [isbnCount_cons_eq rfl, combineTitle, firstTitle_cons_eq rfl,
                htb, htt] <;>
              simp [htt] <;>
              omega
      · have hir : r.bookIsbn ≠ isbn := fun hh => hi hh.symm
        rw [ih (bookMapInsert acc r) isbn hne, lookupBook_bookMapInsert_other acc r isbn hi]
        simp only [isbnCount_cons_ne hir, combineTitle_cons_ne hir, firstTitle_cons_ne hir]


theorem buildBookMap_lookup (records : List ReadingRecord) (isbn : String) (h : isbn ≠ "") :
    lookupBook (buildBookMap records) isbn
      = if isbnCount records isbn = 0 then none
        else some ⟨isbn, (firstTitle records isbn).getD "", isbnCount records isbn⟩ := by
  have hmain := buildBookMap_foldl_lookup records [] isbn h
  rw [buildBookMap]
  have hnil : lookupBook [] isbn = none := rfl
  rw [hnil] at hmain
  exact hmain

theorem bookMapInsert_isbn_ne_empty (entries : List TopBook) (record : ReadingRecord)
    (hacc : ∀ e ∈ entries, e.isbn ≠ "") (hr : record.bookIsbn ≠ "") :
    ∀ e ∈ bookMapInsert entries record, e.isbn ≠ "" := by
  induction entries with
  | nil =>
    intro e he
    rw [bookMapInsert] at he
    rcases List.mem_cons.mp he with rfl | hmem
    · exact hr
    · simp at hmem
  | cons entry rest ih =>
    intro e he
    rw [bookMapInsert] at he
    by_cases h : entry.isbn = record.bookIsbn
    · rw [if_pos h] at he
      rcases List.mem_cons.mp he with rfl | hmem
      · exact hacc entry (List.mem_cons_self entry rest)
      · exact hacc e (List.mem_cons_of_mem entry hmem)
    · rw [if_neg h] at he
      rcases List.mem_cons.mp he with rfl | hmem
      · exact hacc e (List.mem_cons_self e rest)
      · exact ih (fun x hx => hacc x (List.mem_cons_of_mem entry hx)) e hmem

theorem buildBookMap_isbn_ne_empty (records : List ReadingRecord) :
    ∀ e ∈ buildBookMap records, e.isbn ≠ "" := by
  suffices h : ∀ (acc : List TopBook), (∀ e ∈ acc, e.isbn ≠ "") →
      ∀ e ∈ (records.foldl
        (fun entries record =>
          if record.bookIsbn = "" then entries else bookMapInsert entries record) acc),
        e.isbn ≠ "" by
    exact h [] (by simp)
  induction records with
  | nil =>
    intro acc hacc
    simpa using hacc
  | cons r rs ih =>
    intro acc hacc
    simp only [List.foldl_cons]
    by_cases hr : r.bookIsbn = ""
    · rw [if_pos hr]
      exact ih acc hacc
    · rw [if_neg hr]
      exact ih (bookMapInsert acc r) (bookMapInsert_isbn_ne_empty acc r hacc hr)

theorem bookMapInsert_map_isbn (entries : List TopBook) (record : ReadingRecord) :
    (bookMapInsert entries record).map (fun e => e.isbn)
      = if record.bookIsbn ∈ entries.map (fun e => e.isbn)
        then entries.map (fun e => e.isbn)
        else entries.map (fun e => e.isbn) ++ [record.bookIsbn] := by
  induction entries with
  | nil => simp [bookMapInsert]
  | cons entry rest ih =>
    rw [bookMapInsert]
    by_cases h : entry.isbn = record.bookIsbn
    · rw [if_pos h]
      simp [h]
    · rw [if_neg h]
      simp only [List.map_cons, ih]
      by_cases hmem : record.bookIsbn ∈ rest.map (fun e => e.isbn)
      · simp [hmem]
      · have hh : ¬record.bookIsbn = entry.isbn := fun hh => h hh.symm
        simp [hmem, hh]

theorem buildBookMap_map_isbn (records : List ReadingRecord) :
    (buildBookMap records).map (fun e => e.isbn)
      = firstOccurrences
          ((records.map (fun r => r.bookIsbn)).filter (fun i => decide (¬i = ""))) := by
  suffices h : ∀ (acc : List TopBook),
      ((records.foldl
        (fun entries record =>
          if record.bookIsbn = "" then entries else bookMapInsert entries record) acc)).map
            (fun e => e.isbn)
        = ((records.map (fun r => r.bookIsbn)).filter (fun i => decide (¬i = ""))).foldl
            (fun acc2 i => if i ∈ acc2 then acc2 else acc2 ++ [i])
            (acc.map (fun e => e.isbn)) by
    have := h []
    rw [buildBookMap, firstOccurrences]
    simpa using this
  induction records with
  | nil =>
    intro acc
    simp
  | cons r rs ih =>
    intro acc
    simp only [List.foldl_cons, List.map_cons, List.filter_cons]
    by_cases hr : r.bookIsbn = ""
    · rw [if_pos hr]
      have hd : (decide (¬r.bookIsbn = "")) = false := by simp [hr]
      rw [hd]
      simp only [Bool.false_eq_true, if_false]
      exact ih acc
    · rw [if_neg hr]
      have hd : (decide (¬r.bookIsbn = "")) = true := by simp [hr]
      rw [hd]
      simp only [if_true]
      rw [ih (bookMapInsert acc r), List.foldl_cons, bookMapInsert_map_isbn]

/-- C5: topBooks groups the records by isbn skipping empty isbns (an entry
exists for an isbn exactly when its count is positive, carrying that count
and the first non-empty title; no entry has an empty isbn; the entries are
in first-encounter order), sorts the entries descending by count with a
stable sort (a permutation that is pairwise descending and preserves the
relative order of entries of any fixed count), truncates to at most 3, and
on the record list A, A, B yields A with count 2 before B with count 1. -/
theorem claim_C5_topBooks_ranking (records : List ReadingRecord) :
    (topBooksOf records).length ≤ 3
      ∧ (topBooksOf records).Pairwise (fun a b => b.recordCount ≤ a.recordCount)
      ∧ (∀ isbn, isbn ≠ "" →
          lookupBook (buildBookMap records) isbn
            = if isbnCount records isbn = 0 then none
              else some ⟨isbn, (firstTitle records isbn).getD "", isbnCount records isbn⟩)
      ∧ (∀ e ∈ buildBookMap records, e.isbn ≠ "")
      ∧ (buildBookMap records).map (fun e => e.isbn)
          = firstOccurrences
              ((records.map (fun r => r.bookIsbn)).filter (fun i => decide (¬i = "")))
      ∧ List.Perm (sortByCountDesc (buildBookMap records)) (buildBookMap records)
      ∧ (∀ c, (sortByCountDesc (buildBookMap records)).filter
            (fun e => decide (e.recordCount = c))
          = (buildBookMap records).filter (fun e => decide (e.recordCount = c)))
      ∧ topBooksOf
          [⟨some 0, some 0, "A", none⟩, ⟨some 0, some 0, "A", none⟩,
            ⟨some 0, some 0, "B", none⟩]
          = [⟨"A", "", 2⟩, ⟨"B", "", 1⟩] := by
  refine ⟨?_, ?_, ?_, buildBookMap_isbn_ne_empty records, buildBookMap_map_isbn records,
    sortByCountDesc_perm _, fun c => sortByCountDesc_filter_count _ c, by rfl⟩
  · rw [topBooksOf]
    exact List.length_take_le 3 _
  · rw [topBooksOf]
    exact List.Pairwise.sublist (List.take_sublist 3 _) (sortByCountDesc_pairwise _)
  · intro isbn hne
    exact buildBookMap_lookup records isbn hne

/-- Witness for C5 at the concrete record list A, A, B: isbn A is grouped
with count 2 and the sorted, truncated ranking is A before B. -/
theorem claim_C5_witness :
    lookupBook
        (buildBookMap
          [⟨some 0, some 0, "A", none⟩, ⟨some 0, some 0, "A", none⟩,
            ⟨some 0, some 0, "B", none⟩]) "A"
      = some ⟨"A", "", 2⟩ := by
  have h := (claim_C5_topBooks_ranking
    [⟨some 0, some 0, "A", none⟩, ⟨some 0, some 0, "A", none⟩,
      ⟨some 0, some 0, "B", none⟩]).2.2.1 "A" (by decide)
  rw [h]
  rfl


/-! Unparseable record dates: what the aggregation loop does with them. -/

theorem habit_skip_unparseable (r : ReadingRecord) (records : List ReadingRecord)
    (groups : List Group) (finishedBooks : List FinishedGroup)
    (sentences : List Sentence) (today : Int) (h : r.readDate = none) :
    (buildInsights (r :: records) groups finishedBooks sentences today).habit
      = (buildInsights records groups finishedBooks sentences today).habit := by
  have hd : collectRecordDates (r :: records) = collectRecordDates records := by
    rw [collectRecordDates, collectRecordDates, List.filterMap_cons]
    simp [h]
  simp only [buildInsights]
  rw [hd]

/-- C4 counterexample: a single record whose readDate does not parse but
whose createdAt parses as day 0 contributes nothing to the day-based
aggregates; the claim would require totalReadingDays to become 1 via the
createdAt-derived DayKey, but the code leaves it at 0. -/
theorem claim_C4_counterexample :
    (buildInsights [⟨none, some 0, "isbn-a", some "Title"⟩] [] [] [] 0).habit.totalReadingDays
        = 0
      ∧ (buildInsights [⟨none, some 0, "isbn-a", some "Title"⟩] [] [] [] 0).habit.currentStreak
        = 0
      ∧ (⟨none, some 0, "isbn-a", some "Title"⟩ : ReadingRecord).readDate = none
      ∧ (⟨none, some 0, "isbn-a", some "Title"⟩ : ReadingRecord).createdAt = some 0 :=
  ⟨rfl, rfl, rfl, rfl⟩

/-- C4 amended: the insights computation never falls back to createdAt; a
record whose readDate is unparseable is excluded from every day-based habit
metric even when its createdAt parses (the createdAt fallback exists only in
the calendar screen mapping, outside the insights engine). -/
theorem claim_C4_amended_no_createdAt_fallback (r : ReadingRecord)
    (records : List ReadingRecord) (groups : List Group)
    (finishedBooks : List FinishedGroup) (sentences : List Sentence)
    (today t : Int) (h : r.readDate = none) (_hc : r.createdAt = some t) :
    (buildInsights (r :: records) groups finishedBooks sentences today).habit
      = (buildInsights records groups finishedBooks sentences today).habit :=
  habit_skip_unparseable r records groups finishedBooks sentences today h

/-- Witness for the amended C4 at a concrete input: dropping the
unparseable-readDate record (with parseable createdAt 7) leaves every habit
metric unchanged. -/
theorem claim_C4_amended_witness :
    (buildInsights [⟨none, some 7, "x", none⟩, ⟨some 3, some 3, "y", none⟩]
        [] [] [] 10).habit
      = (buildInsights [⟨some 3, some 3, "y", none⟩] [] [] [] 10).habit :=
  claim_C4_amended_no_createdAt_fallback ⟨none, some 7, "x", none⟩
    [⟨some 3, some 3, "y", none⟩] [] [] [] 10 7 rfl rfl

/-- C9: a record whose date cannot be parsed is excluded from the day-based
aggregates (the whole habit block is unchanged by it) but still counts in
totalRecords and, when its isbn is non-empty, still increments the count of
its isbn in the activity ranking. -/
theorem claim_C9_unparseable_still_counted (r : ReadingRecord)
    (records : List ReadingRecord) (groups : List Group)
    (finishedBooks : List FinishedGroup) (sentences : List Sentence) (today : Int)
    (h : r.readDate = none) :
    (buildInsights (r :: records) groups finishedBooks sentences today).habit
        = (buildInsights records groups finishedBooks sentences today).habit
      ∧ (buildInsights (r :: records) groups finishedBooks sentences today).activity.totalRecords
        = (buildInsights records groups finishedBooks sentences today).activity.totalRecords + 1
      ∧ (r.bookIsbn ≠ "" →
          (lookupBook (buildBookMap (r :: records)) r.bookIsbn).map (fun e => e.recordCount)
            = some (isbnCount records r.bookIsbn + 1)) := by
  refine ⟨habit_skip_unparseable r records groups finishedBooks sentences today h, ?_, ?_⟩
  · show (r :: records).length = records.length + 1
    simp
  · intro hne
    rw [buildBookMap_lookup (r :: records) r.bookIsbn hne, isbnCount_cons_eq rfl]
    simp

/-- Witness for C9 at a concrete input: one record with unparseable date and
isbn A leaves the habit block empty, yet its isbn is ranked with count 1. -/
theorem claim_C9_witness :
    (buildInsights [⟨none, some 0, "A", none⟩] [] [] [] 0).habit
        = (buildInsights [] [] [] [] 0).habit
      ∧ (lookupBook (buildBookMap [(⟨none, some 0, "A", none⟩ : ReadingRecord)]) "A").map
          (fun e => e.recordCount) = some 1 := by
  have h := claim_C9_unparseable_still_counted ⟨none, some 0, "A", none⟩ [] [] [] [] 0 rfl
  refine ⟨h.1, ?_⟩
  have h2 := h.2.2 (by decide)
  simpa [isbnCount] using h2


/-! Aggregator orchestration: all-or-nothing with remote fallback. -/

theorem mapM_error_of_mem {α β : Type} (f : α → Except Unit β) (l : List α) (x : α)
    (hx : x ∈ l) (hf : f x = .error ()) : l.mapM f = .error () := by
  induction l with
  | nil => simp at hx
  | cons a as ih =>
    rw [List.mapM_cons]
    rcases List.mem_cons.mp hx with rfl | hmem
    · rw [hf]
      rfl
    · cases ha : f a with
      | error e =>
        cases e
        rfl
      | ok b =>
        have has : as.mapM f = .error () := ih hmem
        rw [has]
        rfl

/-- C7: the aggregator is all-or-nothing.  Whenever `fetchInsights` returns
a value, that value is either the complete locally computed result of all
successful fetches or the remote pre-computed response; a failed local build
makes `fetchInsights` return exactly the remote endpoint result; and a
missing user identity, a failed identity fetch, a failed groups,
finished-books or records fetch, a failed sentence batch, or a failed
per-group sentence fetch each make the local build fail. -/
theorem claim_C7_all_or_nothing_fallback (env : Env) :
    (∀ r, fetchInsights env = .ok r →
        (∃ userId groups finishedBooks records sentences,
            env.userId = .ok (some userId)
          ∧ env.groups = .ok groups
          ∧ env.finishedBooks = .ok finishedBooks
          ∧ env.records userId = .ok records
          ∧ fetchUserSentences env userId (groups.map (fun g => g.id)) = .ok sentences
          ∧ r = buildInsights records groups finishedBooks sentences env.today)
        ∨ env.remoteInsights = .ok r)
    ∧ (buildInsightsFromUserData env = .error () →
        fetchInsights env = env.remoteInsights)
    ∧ (env.userId = .ok none → buildInsightsFromUserData env = .error ())
    ∧ (env.userId = .error () → buildInsightsFromUserData env = .error ())
    ∧ (∀ userId, env.userId = .ok (some userId) →
        (env.groups = .error () ∨ env.finishedBooks = .error ()
          ∨ env.records userId = .error ()) →
        buildInsightsFromUserData env = .error ())
    ∧ (∀ userId groups, env.userId = .ok (some userId) → env.groups = .ok groups →
        fetchUserSentences env userId (groups.map (fun g => g.id)) = .error () →
        buildInsightsFromUserData env = .error ())
    ∧ (∀ userId groups g, env.userId = .ok (some userId) → env.groups = .ok groups →
        g ∈ groups → env.groupSentences g.id = .error () →
        fetchUserSentences env userId (groups.map (fun gg => gg.id)) = .error ()) := by
  refine ⟨?_, ?_, ?_, ?_, ?_, ?_, ?_⟩
  · intro r hr
    rw [fetchInsights] at hr
    cases hb : buildInsightsFromUserData env with
    | error e =>
      rw [hb] at hr
      right
      exact hr
    | ok result =>
      rw [hb] at hr
      left
      rw [buildInsightsFromUserData] at hb
      cases hu : env.userId with
      | error e => simp [hu] at hb
      | ok u =>
        cases u with
        | none => simp [hu] at hb
        | some userId =>
          simp only [hu] at hb
          cases hg : env.groups with
          | error e => simp [hg] at hb
          | ok groups =>
            simp only [hg] at hb
            cases hf : env.finishedBooks with
            | error e => simp [hf] at hb
            | ok finishedBooks =>
              simp only [hf] at hb
              cases hrc : env.records userId with
              | error e => simp [hrc] at hb
              | ok records =>
                simp only [hrc] at hb
                cases hs : fetchUserSentences env userId (groups.map (fun g => g.id)) with
                | error e => simp [hs] at hb
                | ok sentences =>
                  simp only [hs, Except.ok.injEq] at hb hr
                  exact ⟨userId, groups, finishedBooks, records, sentences, rfl, rfl, rfl,
                    hrc, hs, (hr.symm.trans hb.symm)⟩
  · intro h
    rw [fetchInsights, h]
  · intro h
    rw [buildInsightsFromUserData, h]
  · intro h
    rw [buildInsightsFromUserData, h]
  · intro userId hu hfail
    simp only [buildInsightsFromUserData, hu]
    rcases hfail with hg | hf | hrc
    · rw [hg]
    · cases hg2 : env.groups with
      | error e =>
        cases e
        rfl
      | ok groups =>
        simp only [hg2]
        rw [hf]
    · cases hg2 : env.groups with
      | error e =>
        cases e
        rfl
      | ok groups =>
        simp only [hg2]
        cases hf2 : env.finishedBooks with
        | error e =>
          cases e
          rfl
        | ok finishedBooks =>
          simp only [hf2]
          rw [hrc]
  · intro userId groups hu hg hs
    simp only [buildInsightsFromUserData, hu, hg]
    cases hf2 : env.finishedBooks with
    | error e =>
      cases e
      rfl
    | ok finishedBooks =>
      simp only [hf2]
      cases hrc2 : env.records userId with
      | error e =>
        cases e
        rfl
      | ok records =>
        simp only [hrc2]
        rw [hs]
  · intro userId groups g hu hg hgmem hgs
    rw [fetchUserSentences]
    have hne : (groups.map (fun gg => gg.id)).isEmpty = false := by
      cases groups with
      | nil => simp at hgmem
      | cons a as => rfl
    rw [hne]
    simp only [Bool.false_eq_true, if_false]
    have hmapm : (groups.map (fun gg => gg.id)).mapM env.groupSentences = .error () :=
      mapM_error_of_mem env.groupSentences (groups.map (fun gg => gg.id)) g.id
        (List.mem_map_of_mem (fun gg => gg.id) hgmem) hgs
    rw [hmapm]

/-- Witness for C7 at a concrete environment: the records fetch fails, so
the aggregator returns exactly the remote pre-computed response. -/
theorem claim_C7_witness :
    fetchInsights
        ⟨.ok (some "u"), .ok [], .ok [], fun _ => .error (), fun _ => .ok [],
          .ok (buildInsights [] [] [] [] 0), 0⟩
      = .ok (buildInsights [] [] [] [] 0) := by
  have hbuild := (claim_C7_all_or_nothing_fallback
    ⟨.ok (some "u"), .ok [], .ok [], fun _ => .error (), fun _ => .ok [],
      .ok (buildInsights [] [] [] [] 0), 0⟩).2.2.2.2.1 "u" rfl (Or.inr (Or.inr rfl))
  have hfb := (claim_C7_all_or_nothing_fallback
    ⟨.ok (some "u"), .ok [], .ok [], fun _ => .error (), fun _ => .ok [],
      .ok (buildInsights [] [] [] [] 0), 0⟩).2.1 hbuild
  exact hfb


end IVEread
